import Mathlib

/-!
# Like / unlike / comment / uncomment handlers of `routes/api/posts.js` and `routes/api/tweets.js`

The two route files are the same text up to the renaming post ↔ tweet, so each handler is
embedded once, with a `Kind` parameter that selects the words used in the messages.

A handler is a function from the document that `findById` returned (an `Option`, `none`
standing for JavaScript `null`) and the request data to the pair of
* the HTTP response, and
* the document as it stands in the collection when the handler is done
  (what `save()` wrote, or the document as loaded when `save()` is not reached).

Object ids are the strings that `toString()` yields for them.  An id that mongoose would
generate while casting a pushed sub-document is an explicit argument (`freshId`).
The store is taken to be available: `save()` does not throw.
-/

namespace TwitterV2

/-! ## Data model -/

/-- The route file a handler lives in: `routes/api/posts.js` or `routes/api/tweets.js`. -/
inductive Kind where
  | post
  | tweet
  deriving DecidableEq, Repr

/-- The word the messages of a route file use for its documents. -/
def Kind.label : Kind → String
  | .post => "Post"
  | .tweet => "Tweet"

/-- An element of `likes` (and of `retweets`) in `models/Tweet.js`: a sub-document with the
`_id` mongoose gives it and the `user` reference. -/
structure Like where
  id : String
  user : String
  deriving DecidableEq, Repr

/-- An element of `comments` in `models/Tweet.js`.  `tweet` is never set by the handlers. -/
structure Comment where
  id : String
  tweet : Option String
  user : String
  text : String
  name : String
  avatar : String
  retweets : List Like
  likes : List Like
  deriving DecidableEq, Repr

/-- A document of `models/Tweet.js`.  `models/Post.js` is not among the sources; the post
handlers read and write the same three fields `user`, `likes`, `comments` in the same way,
so a post document is given the same shape. -/
structure Item where
  user : String
  text : String
  name : String
  avatar : String
  retweets : List Like
  likes : List Like
  comments : List Comment
  date : Nat
  deriving DecidableEq, Repr

/-- Modelled from the spec: `models/User.js` is missing.  A user record has an immutable id,
a unique email, a display name and an avatar reference; the password hash is dropped by
`select("-password")` and is not part of what the handlers see. -/
structure User where
  id : String
  name : String
  email : String
  avatar : String
  deriving DecidableEq, Repr

/-- What a handler hands to `res`. -/
inductive Body where
  /-- The body of `res.json({ msg })`. -/
  | msg (m : String)
  /-- The body of `res.json(post.likes)`. -/
  | likes (l : List Like)
  /-- The body of `res.json(post.comments)`. -/
  | comments (c : List Comment)
  /-- The body of `res.json({ errors: errors.array() })`, each error by its message. -/
  | errors (e : List String)
  /-- The body of `res.send(text)`. -/
  | text (s : String)
  deriving DecidableEq, Repr

/-- An HTTP response: status code and body. -/
structure Response where
  status : Nat
  body : Body
  deriving DecidableEq, Repr

/-! ## JavaScript primitives used by the handlers -/

/-- Search `pat` in `s`, the position of the first character of `s` being `i`. -/
def indexOfFrom (pat : List Char) : List Char → Nat → Int
  | [], i => if pat = [] then (i : Int) else -1
  | c :: cs, i => if pat.isPrefixOf (c :: cs) then (i : Int) else indexOfFrom pat cs (i + 1)

/-- The string method `s.indexOf(pat)`: the first position at which `pat` occurs
in `s`, or `-1`. -/
def stringIndexOf (s pat : String) : Int :=
  indexOfFrom pat.data s.data 0

/-- The coercion `ToNumber` applied to an array of integers, `none` standing for `NaN`.  The
array is first turned into a string by `join(",")`: the empty array gives `""`, which is `0`;
a one-element array gives the numeral of its element; two or more elements give a string with a comma,
which is not a numeral. -/
def arrayToNumber : List Int → Option Int
  | [] => some 0
  | [x] => some x
  | _ :: _ :: _ => none

/-- The coercion `ToIntegerOrInfinity` on the result of `ToNumber`: `NaN` becomes `0`. -/
def toIntegerOrInfinity : Option Int → Int
  | none => 0
  | some x => x

/-- The array method `splice(start, deleteCount)` with no inserted items: the array that is
left.  A negative `start` counts from the end; both arguments are clamped to the array. -/
def splice {α : Type} (xs : List α) (start : Int) (deleteCount : Nat) : List α :=
  let len : Int := xs.length
  let actualStart : Nat :=
    if start < 0 then (max (len + start) 0).toNat else (min start len).toNat
  let actualDeleteCount : Nat := min deleteCount (xs.length - actualStart)
  xs.take actualStart ++ xs.drop (actualStart + actualDeleteCount)

/-- The array method `unshift(x)`: the array with `x` put in front. -/
def unshift {α : Type} (xs : List α) (x : α) : List α :=
  x :: xs

/-- Search `a` in an array whose first element has position `i`. -/
def arrayIndexOfFrom {α : Type} [DecidableEq α] : List α → α → Nat → Int
  | [], _, _ => -1
  | x :: xs, a, i => if x = a then (i : Int) else arrayIndexOfFrom xs a (i + 1)

/-- The array method `comments.indexOf(c)`, with `-1` when absent.  The handler passes the very
element that `find` returned; an earlier element equal to it would have been returned by
`find` itself, so comparing by value gives the position of that element. -/
def arrayIndexOf {α : Type} [DecidableEq α] (xs : List α) (a : α) : Int :=
  arrayIndexOfFrom xs a 0

/-- The query `User.findById(id)` on the users collection. -/
def findById (users : List User) (id : String) : Option User :=
  users.find? (fun usr => decide (usr.id = id))

/-! ## Handlers -/

/-- The response of every `catch` block of the like and unlike handlers. -/
def serverError : Response := ⟨500, .text "Server error"⟩

/-- The response of every `catch` block of the comment handlers. -/
def serverErrorC : Response := ⟨500, .text "Server Error"⟩

/-- Handler of `router.put("/like/:post_id")` / `router.put("/like/:tweet_id")`.
`reqUser` is `req.user.id`. -/
def like (k : Kind) (found : Option Item) (reqUser : String) (freshId : String) :
    Response × Option Item :=
  let newLike : Like := { id := freshId, user := reqUser }
  match found with
  | none => (serverError, none)
  | some post =>
    if (post.likes.filter (fun l => decide (l.user = newLike.user))).length > 0 then
      (⟨400, .msg (k.label ++ " already liked")⟩, some post)
    else if post.user = newLike.user then
      (⟨400, .msg "Narcissism alert"⟩, some post)
    else
      let post1 : Item := { post with likes := unshift post.likes newLike }
      (⟨200, .likes post1.likes⟩, some post1)

/-- Handler of `router.delete("/unlike/:post_id")` / `router.delete("/unlike/:tweet_id")`.
The loose comparison `like.user == newLike.user` of an object id with a string compares the
string of the id with that string.  `delIndex` is the array that `map` returns, and it is
that array which is handed to `splice` as its start position. -/
def unlike (_k : Kind) (found : Option Item) (reqUser : String) : Response × Option Item :=
  match found with
  | none => (serverError, none)
  | some post =>
    let filtered := post.likes.filter (fun l => decide (l.user = reqUser))
    if filtered.length = 0 then
      (⟨401, .msg "Not liked yet"⟩, some post)
    else
      let delIndex : List Int := post.likes.map (fun l => stringIndexOf l.user reqUser)
      let post1 : Item :=
        { post with likes := splice post.likes (toIntegerOrInfinity (arrayToNumber delIndex)) 1 }
      (⟨200, .likes post1.likes⟩, some post1)

/-- The object `newComment` that the comment handler builds from the user record, the request
text and nothing else; `freshId` is the `_id` it gets when pushed into `comments`. -/
def newComment (user : User) (bodyText : String) (freshId : String) : Comment :=
  { id := freshId, tweet := none, user := user.id, text := bodyText,
    name := user.name, avatar := user.avatar, retweets := [], likes := [] }

/-- Handler of `router.post("/comment/:post_id")` / `router.post("/comment/:tweet_id")`.
`bodyText` is `req.body.text` as the validator reads it (an absent field reads as `""`). -/
def comment (_k : Kind) (users : List User) (found : Option Item) (reqUser : String)
    (bodyText : String) (freshId : String) : Response × Option Item :=
  if bodyText = "" then
    (⟨400, .errors ["Text is required"]⟩, found)
  else
    match findById users reqUser, found with
    | some user, some post =>
      let post1 : Item :=
        { post with comments := unshift post.comments (newComment user bodyText freshId) }
      (⟨200, .comments post1.comments⟩, some post1)
    | _, _ => (serverErrorC, found)

/-- Handler of `router.delete("/comment/:post_id/:comment_id")` /
`router.delete("/comment/:tweet_id/:comment_id")`. -/
def uncomment (_k : Kind) (found : Option Item) (commentId : String) (reqUser : String) :
    Response × Option Item :=
  match found with
  | none => (serverErrorC, none)
  | some post =>
    match post.comments.find? (fun c => decide (c.id = commentId)) with
    | none => (⟨404, .msg "Comment does not exist"⟩, some post)
    | some delComment =>
      if delComment.user ≠ reqUser then
        (⟨401, .msg "User not authorized"⟩, some post)
      else
        let delIndex := arrayIndexOf post.comments delComment
        let post1 : Item := { post with comments := splice post.comments delIndex 1 }
        (⟨200, .comments post1.comments⟩, some post1)

/-- One call of one of the four mutating handlers, with its request data. -/
inductive Mutation where
  | like (reqUser freshId : String)
  | unlike (reqUser : String)
  | comment (reqUser bodyText freshId : String)
  | uncomment (commentId reqUser : String)
  deriving DecidableEq, Repr

/-- Run the handler a `Mutation` names. -/
def Mutation.run (k : Kind) (users : List User) (found : Option Item) :
    Mutation → Response × Option Item
  | .like reqUser freshId => TwitterV2.like k found reqUser freshId
  | .unlike reqUser => TwitterV2.unlike k found reqUser
  | .comment reqUser bodyText freshId => TwitterV2.comment k users found reqUser bodyText freshId
  | .uncomment commentId reqUser => TwitterV2.uncomment k found commentId reqUser

/-- The request data of one call of the comment handler. -/
structure CommentReq where
  reqUser : String
  bodyText : String
  freshId : String
  deriving DecidableEq, Repr

/-- Run the comment handler once per request, in order, each call on the document the call
before it left in the collection. -/
def commentAll (k : Kind) (users : List User) : Option Item → List CommentReq → Option Item
  | found, [] => found
  | found, r :: rs =>
    commentAll k users (comment k users found r.reqUser r.bodyText r.freshId).2 rs

/-- Ids handed out one after the other, each distinct from every id that is present when
it is handed out: the ids in `existing` and the ids handed out before it. -/
def FreshIds : List String → List String → Prop
  | [], _ => True
  | i :: rest, existing => i ∉ existing ∧ FreshIds rest (i :: existing)

instance : (fresh existing : List String) → Decidable (FreshIds fresh existing)
  | [], _ => isTrue trivial
  | i :: rest, existing =>
    have : Decidable (FreshIds rest (i :: existing)) := instDecidableFreshIds rest (i :: existing)
    inferInstanceAs (Decidable (i ∉ existing ∧ FreshIds rest (i :: existing)))

/-! ## The documents the routes produce -/

/-- The document `newPost` / `newTweet` that the create route `router.post("/")` builds and
saves once the text passed validation and the user record was found: text, name and avatar
of the record, `req.user.id`; the arrays and the date are left to their schema defaults. -/
def newPost (user : User) (reqUser : String) (bodyText : String) (date : Nat) : Item :=
  { text := bodyText, name := user.name, avatar := user.avatar, user := reqUser,
    retweets := [], likes := [], comments := [], date := date }

/-- The id that a call brings along is one that mongoose generated: for a comment it differs
from the ids of the comments already on the document. -/
def Mutation.freshFor : Mutation → Item → Prop
  | .comment _ _ freshId, post => freshId ∉ post.comments.map Comment.id
  | _, _ => True

/-- The documents that can stand in a collection: those the create route saved, and those a
like, unlike, comment or uncomment call left there, whatever it answered. -/
inductive Reachable : Item → Prop where
  | create (users : List User) (user : User) (reqUser bodyText : String) (date : Nat) :
      bodyText ≠ "" → findById users reqUser = some user →
      Reachable (newPost user reqUser bodyText date)
  | step (k : Kind) (users : List User) (post post1 : Item) (m : Mutation) :
      Reachable post → m.freshFor post → (m.run k users (some post)).2 = some post1 →
      Reachable post1

/-! ## Properties of a like list -/

/-- A like list holds at most one entry per user id. -/
def AtMostOnePerUser (likes : List Like) : Prop :=
  (likes.map Like.user).Nodup

instance (likes : List Like) : Decidable (AtMostOnePerUser likes) :=
  inferInstanceAs (Decidable (likes.map Like.user).Nodup)

/-- The author of a document has no entry in its like list. -/
def AuthorAbsent (post : Item) : Prop :=
  post.user ∉ post.likes.map Like.user

instance (post : Item) : Decidable (AuthorAbsent post) :=
  inferInstanceAs (Decidable (post.user ∉ post.likes.map Like.user))

/-- The entries of a like list that belong to user `u`. -/
def likesOf (likes : List Like) (u : String) : List Like :=
  likes.filter (fun l => decide (l.user = u))

/-! ## Sample documents -/

/-- A document written by `"A"` and liked by `"B"`, then by `"C"` (newest first). -/
def sampleItem : Item :=
  { user := "A", text := "hello", name := "Ann", avatar := "a.png", retweets := [],
    likes := [⟨"l2", "C"⟩, ⟨"l1", "B"⟩], comments := [], date := 0 }

/-- The user records of the sample scenarios. -/
def sampleUsers : List User :=
  [⟨"A", "Ann", "ann@example.org", "a.png"⟩, ⟨"B", "Bob", "bob@example.org", "b.png"⟩,
   ⟨"C", "Cy", "cy@example.org", "c.png"⟩]

/-- The comment `c1`: user `"A"` wrote "hi". -/
def sampleC1 : Comment := ⟨"c1", none, "A", "hi", "Ann", "a.png", [], []⟩

/-- The comment `c2`: user `"C"` wrote "yo". -/
def sampleC2 : Comment := ⟨"c2", none, "C", "yo", "Cy", "c.png", [], []⟩

/-- A document of `"A"` on which `"A"` commented "hi" and then `"C"` commented "yo". -/
def commentedItem : Item :=
  { user := "A", text := "hello", name := "Ann", avatar := "a.png", retweets := [],
    likes := [], comments := [sampleC2, sampleC1], date := 0 }

/-! ## Facts about the primitives -/

theorem indexOfFrom_self (p : List Char) (i : Nat) : indexOfFrom p p i = (i : Int) := by
  cases p with
  | nil => simp [indexOfFrom]
  | cons c cs => simp [indexOfFrom]

theorem stringIndexOf_self (s : String) : stringIndexOf s s = 0 := by
  simp [stringIndexOf, indexOfFrom_self]

/-- Whenever some like matches the caller, the array that `map` builds coerces to position 0. -/
theorem delIndex_eq_zero (likes : List Like) (u : String)
    (h : (likes.filter (fun l => decide (l.user = u))).length ≠ 0) :
    toIntegerOrInfinity (arrayToNumber (likes.map (fun l => stringIndexOf l.user u))) = 0 := by
  match likes, h with
  | [], h => simp at h
  | [l], h =>
    by_cases hl : l.user = u
    · simp [arrayToNumber, toIntegerOrInfinity, hl, stringIndexOf_self]
    · simp [hl] at h
  | _ :: _ :: _, _ => simp [arrayToNumber, toIntegerOrInfinity]

theorem splice_zero_one {α : Type} (xs : List α) : splice xs 0 1 = xs.tail := by
  cases xs with
  | nil => simp [splice]
  | cons x xs =>
    have h : min (0 : Int) ((xs.length : Int) + 1) = 0 := min_eq_left (by omega)
    simp [splice, h]

theorem splice_length_one {α : Type} (l1 l2 : List α) (c : α) :
    splice (l1 ++ c :: l2) (l1.length : Int) 1 = l1 ++ l2 := by
  have h1 : ¬ ((l1.length : Int) < 0) := by omega
  have h2 : (min (l1.length : Int) ((l1 ++ c :: l2).length : Int)).toNat = l1.length := by
    have : (l1.length : Int) ≤ ((l1 ++ c :: l2).length : Int) := by
      simp only [List.length_append, List.length_cons]
      omega
    rw [min_eq_left this]
    simp
  simp only [splice, h1, if_false, h2]
  have h3 : min 1 ((l1 ++ c :: l2).length - l1.length) = 1 := by
    simp
  rw [h3]
  simp

/-- The unlike handler on a document that holds a like of the caller: the first like goes. -/
theorem unlike_of_mem (k : Kind) (post : Item) (u : String)
    (h : (post.likes.filter (fun l => decide (l.user = u))).length ≠ 0) :
    unlike k (some post) u
      = (⟨200, .likes post.likes.tail⟩, some { post with likes := post.likes.tail }) := by
  simp only [unlike, if_neg h, delIndex_eq_zero post.likes u h, splice_zero_one]

theorem filter_user_length_eq_zero (likes : List Like) (u : String) :
    (likes.filter (fun l => decide (l.user = u))).length = 0 ↔ ∀ l ∈ likes, l.user ≠ u := by
  simp [List.filter_eq_nil_iff]

/-- The like handler on a document the caller neither wrote nor liked. -/
theorem like_of_new (k : Kind) (post : Item) (u fid : String)
    (hauthor : post.user ≠ u) (hnew : ∀ l ∈ post.likes, l.user ≠ u) :
    like k (some post) u fid
      = (⟨200, .likes (⟨fid, u⟩ :: post.likes)⟩,
          some { post with likes := ⟨fid, u⟩ :: post.likes }) := by
  have h0 : (post.likes.filter (fun l => decide (l.user = u))).length = 0 :=
    (filter_user_length_eq_zero post.likes u).2 hnew
  simp [like, h0, hauthor, unshift]

/-- The like handler on a document the caller has liked already. -/
theorem like_of_mem (k : Kind) (post : Item) (u fid : String)
    (h : ∃ l ∈ post.likes, l.user = u) :
    like k (some post) u fid = (⟨400, .msg (k.label ++ " already liked")⟩, some post) := by
  have h0 : (post.likes.filter (fun l => decide (l.user = u))).length > 0 := by
    apply List.length_pos.2
    intro hnil
    obtain ⟨l, hl, hu⟩ := h
    have := (List.filter_eq_nil_iff.1 hnil) l hl
    simp [hu] at this
  simp only [like, if_pos h0]

theorem likesOf_length_le_one (likes : List Like) (u : String) (h : AtMostOnePerUser likes) :
    (likesOf likes u).length ≤ 1 := by
  unfold AtMostOnePerUser at h
  unfold likesOf
  induction likes with
  | nil => simp
  | cons l ls ih =>
    simp only [List.map_cons, List.nodup_cons] at h
    by_cases hl : l.user = u
    · have hnone : ∀ x ∈ ls, x.user ≠ u := by
        intro x hx hxu
        exact h.1 (List.mem_map.2 ⟨x, hx, by rw [hxu, hl]⟩)
      have h0 := (filter_user_length_eq_zero ls u).2 hnone
      simp [List.filter_cons, hl, h0]
    · have := ih h.2
      simp [List.filter_cons, hl, this]

theorem like_snd_cases (k : Kind) (post : Item) (u fid : String) :
    (like k (some post) u fid).2 = some post ∨
      (post.user ≠ u ∧ (∀ l ∈ post.likes, l.user ≠ u) ∧
        (like k (some post) u fid).2 = some { post with likes := ⟨fid, u⟩ :: post.likes }) := by
  by_cases hmem : ∃ l ∈ post.likes, l.user = u
  · left
    rw [like_of_mem k post u fid hmem]
  · have hnew : ∀ l ∈ post.likes, l.user ≠ u := fun l hl hu => hmem ⟨l, hl, hu⟩
    by_cases hauthor : post.user = u
    · left
      have h0 := (filter_user_length_eq_zero post.likes u).2 hnew
      simp [like, h0, hauthor]
    · right
      exact ⟨hauthor, hnew, by rw [like_of_new k post u fid hauthor hnew]⟩

theorem unlike_snd_cases (k : Kind) (post : Item) (u : String) :
    (unlike k (some post) u).2 = some post ∨
      (unlike k (some post) u).2 = some { post with likes := post.likes.tail } := by
  by_cases h : (post.likes.filter (fun l => decide (l.user = u))).length = 0
  · left
    simp only [unlike, if_pos h]
  · right
    rw [unlike_of_mem k post u h]

theorem comment_of_valid (k : Kind) (users : List User) (post : Item) (u t fid : String)
    (usr : User) (ht : t ≠ "") (hu : findById users u = some usr) :
    comment k users (some post) u t fid
      = (⟨200, .comments (newComment usr t fid :: post.comments)⟩,
          some { post with comments := newComment usr t fid :: post.comments }) := by
  simp only [comment, if_neg ht, hu, unshift]

theorem comment_snd_likes (k : Kind) (users : List User) (post : Item) (u t fid : String) :
    ∃ post1 : Item, (comment k users (some post) u t fid).2 = some post1 ∧
      post1.likes = post.likes ∧ post1.user = post.user := by
  by_cases ht : t = ""
  · exact ⟨post, by simp [comment, ht], rfl, rfl⟩
  · cases hu : findById users u with
    | none => exact ⟨post, by simp [comment, ht, hu], rfl, rfl⟩
    | some usr =>
      exact ⟨{ post with comments := newComment usr t fid :: post.comments },
        by rw [comment_of_valid k users post u t fid usr ht hu], rfl, rfl⟩

theorem uncomment_snd_likes (k : Kind) (post : Item) (cid u : String) :
    ∃ post1 : Item, (uncomment k (some post) cid u).2 = some post1 ∧
      post1.likes = post.likes ∧ post1.user = post.user := by
  cases hf : post.comments.find? (fun c => decide (c.id = cid)) with
  | none => exact ⟨post, by simp only [uncomment, hf], rfl, rfl⟩
  | some c =>
    by_cases hc : c.user ≠ u
    · exact ⟨post, by simp only [uncomment, hf, if_pos hc], rfl, rfl⟩
    · exact ⟨{ post with comments := splice post.comments (arrayIndexOf post.comments c) 1 },
        by simp only [uncomment, hf, if_neg hc], rfl, rfl⟩

theorem findById_id (users : List User) (u : String) (usr : User)
    (h : findById users u = some usr) : usr.id = u := by
  have := List.find?_some h
  simpa using this

theorem arrayIndexOfFrom_append {α : Type} [DecidableEq α] (l1 l2 : List α) (c : α) (i : Nat)
    (h : ∀ x ∈ l1, x ≠ c) :
    arrayIndexOfFrom (l1 ++ c :: l2) c i = ((i + l1.length : Nat) : Int) := by
  induction l1 generalizing i with
  | nil => simp [arrayIndexOfFrom]
  | cons x xs ih =>
    have hx : x ≠ c := h x (by simp)
    have hxs : ∀ y ∈ xs, y ≠ c := fun y hy => h y (by simp [hy])
    show arrayIndexOfFrom (x :: (xs ++ c :: l2)) c i = _
    rw [arrayIndexOfFrom, if_neg hx, ih (i + 1) hxs]
    simp only [List.length_cons]
    congr 1
    omega

theorem find_id_append (l1 l2 : List Comment) (c : Comment)
    (h : ∀ x ∈ l1, x.id ≠ c.id) :
    (l1 ++ c :: l2).find? (fun x => decide (x.id = c.id)) = some c := by
  induction l1 with
  | nil => simp
  | cons x xs ih =>
    have hx : x.id ≠ c.id := h x (by simp)
    have hxs : ∀ y ∈ xs, y.id ≠ c.id := fun y hy => h y (by simp [hy])
    simp [List.find?_cons, hx, ih hxs]

/-- The uncomment handler when the first comment with the requested id was written by the
caller: that comment goes, the others stay in place. -/
theorem uncomment_at (k : Kind) (post : Item) (l1 l2 : List Comment) (c : Comment) (u : String)
    (hsplit : post.comments = l1 ++ c :: l2) (h1 : ∀ x ∈ l1, x.id ≠ c.id) (hu : c.user = u) :
    uncomment k (some post) c.id u
      = (⟨200, .comments (l1 ++ l2)⟩, some { post with comments := l1 ++ l2 }) := by
  have hne : ∀ x ∈ l1, x ≠ c := fun x hx hxc => h1 x hx (by rw [hxc])
  have hidx : arrayIndexOf (l1 ++ c :: l2) c = (l1.length : Int) := by
    rw [arrayIndexOf, arrayIndexOfFrom_append l1 l2 c 0 hne]
    simp
  have hnot : ¬ (c.user ≠ u) := fun h => h hu
  simp only [uncomment, hsplit, find_id_append l1 l2 c h1, if_neg hnot, hidx,
    splice_length_one]

/-- The uncomment handler when the first comment with the requested id was written by
somebody else. -/
theorem uncomment_at_other_author (k : Kind) (post : Item) (l1 l2 : List Comment) (c : Comment)
    (u : String) (hsplit : post.comments = l1 ++ c :: l2) (h1 : ∀ x ∈ l1, x.id ≠ c.id)
    (hu : c.user ≠ u) :
    uncomment k (some post) c.id u = (⟨401, .msg "User not authorized"⟩, some post) := by
  simp only [uncomment, hsplit, find_id_append l1 l2 c h1, if_pos hu]

/-- With pairwise distinct ids, a comment of the list splits it into the comments before it
and those after it, none of which shares its id. -/
theorem split_of_nodup_ids (cs : List Comment) (c : Comment)
    (hnd : (cs.map Comment.id).Nodup) (hc : c ∈ cs) :
    ∃ l1 l2, cs = l1 ++ c :: l2 ∧ (∀ x ∈ l1, x.id ≠ c.id) ∧ (∀ x ∈ l2, x.id ≠ c.id) := by
  obtain ⟨l1, l2, hsplit⟩ := List.append_of_mem hc
  refine ⟨l1, l2, hsplit, ?_, ?_⟩
  · intro x hx hid
    rw [hsplit] at hnd
    simp only [List.map_append, List.map_cons] at hnd
    have hdis := (List.nodup_append.1 hnd).2.2
    exact hdis (List.mem_map.2 ⟨x, hx, hid⟩) (by simp)
  · intro x hx hid
    rw [hsplit] at hnd
    simp only [List.map_append, List.map_cons] at hnd
    have hcons := (List.nodup_append.1 hnd).2.1
    exact (List.nodup_cons.1 hcons).1 (List.mem_map.2 ⟨x, hx, hid⟩)

theorem freshIds_ne (fresh existing : List String) (h : FreshIds fresh existing) :
    ∀ i ∈ fresh, ∀ x ∈ existing, i ≠ x := by
  induction fresh generalizing existing with
  | nil => intro i hi; simp at hi
  | cons j rest ih =>
    intro i hi x hx
    rcases List.mem_cons.1 hi with rfl | hrest
    · intro hix
      exact h.1 (hix ▸ hx)
    · exact ih (j :: existing) h.2 i hrest x (List.mem_cons_of_mem _ hx)

/-- A run of comment calls that all pass validation and find their user record stacks the new
comments, newest first, on top of the comments that were there. -/
theorem commentAll_valid (k : Kind) (users : List User) (reqs : List CommentReq) (post : Item)
    (hvalid : ∀ r ∈ reqs, r.bodyText ≠ "" ∧ (findById users r.reqUser).isSome) :
    ∃ later : List Comment,
      later.map (fun x => (x.user, x.text, x.id))
        = reqs.reverse.map (fun r => (r.reqUser, r.bodyText, r.freshId)) ∧
      commentAll k users (some post) reqs
        = some { post with comments := later ++ post.comments } := by
  induction reqs generalizing post with
  | nil => exact ⟨[], rfl, rfl⟩
  | cons r rs ih =>
    obtain ⟨ht, hsome⟩ := hvalid r (by simp)
    obtain ⟨usr, husr⟩ := Option.isSome_iff_exists.1 hsome
    have hrs : ∀ q ∈ rs, q.bodyText ≠ "" ∧ (findById users q.reqUser).isSome :=
      fun q hq => hvalid q (by simp [hq])
    obtain ⟨later, hmap, hrun⟩ :=
      ih { post with comments := newComment usr r.bodyText r.freshId :: post.comments } hrs
    refine ⟨later ++ [newComment usr r.bodyText r.freshId], ?_, ?_⟩
    · simp [hmap, newComment, findById_id users r.reqUser usr husr]
    · simp only [commentAll, comment_of_valid k users post r.reqUser r.bodyText r.freshId usr ht husr,
        hrun, List.append_assoc, List.singleton_append]

/-! ## Invariants of the documents the routes produce -/

theorem splice_sublist {α : Type} (xs : List α) (start : Int) (n : Nat) :
    (splice xs start n).Sublist xs := by
  unfold splice
  simp only
  generalize (if start < 0 then (max ((xs.length : Int) + start) 0).toNat
    else (min start (xs.length : Int)).toNat) = a
  have h : (xs.take a ++ xs.drop (a + min n (xs.length - a))).Sublist
      (xs.take a ++ xs.drop a) :=
    List.Sublist.append (List.Sublist.refl _)
      (List.drop_sublist_drop_left xs (Nat.le_add_right a _))
  rwa [List.take_append_drop] at h

theorem comment_snd_cases (k : Kind) (users : List User) (post : Item) (u t fid : String) :
    (comment k users (some post) u t fid).2 = some post ∨
      ∃ usr : User, (comment k users (some post) u t fid).2
        = some { post with comments := newComment usr t fid :: post.comments } := by
  by_cases ht : t = ""
  · left
    simp [comment, ht]
  · cases hu : findById users u with
    | none =>
      left
      simp [comment, ht, hu]
    | some usr =>
      right
      exact ⟨usr, by rw [comment_of_valid k users post u t fid usr ht hu]⟩

theorem uncomment_snd_cases (k : Kind) (post : Item) (cid u : String) :
    (uncomment k (some post) cid u).2 = some post ∨
      ∃ start : Int, (uncomment k (some post) cid u).2
        = some { post with comments := splice post.comments start 1 } := by
  cases hf : post.comments.find? (fun c => decide (c.id = cid)) with
  | none =>
    left
    simp only [uncomment, hf]
  | some c =>
    by_cases hc : c.user ≠ u
    · left
      simp only [uncomment, hf, if_pos hc]
    · right
      exact ⟨arrayIndexOf post.comments c, by simp only [uncomment, hf, if_neg hc]⟩

/-- One call of a handler keeps the author, the two invariants of the like list and the
distinctness of the comment ids. -/
theorem run_preserves_invariants (k : Kind) (users : List User) (post post1 : Item)
    (m : Mutation) (hfresh : m.freshFor post)
    (hrun : (m.run k users (some post)).2 = some post1)
    (habsent : AuthorAbsent post) (huniq : AtMostOnePerUser post.likes)
    (hids : (post.comments.map Comment.id).Nodup) :
    AuthorAbsent post1 ∧ AtMostOnePerUser post1.likes ∧
      (post1.comments.map Comment.id).Nodup := by
  cases m with
  | like u fid =>
    rcases like_snd_cases k post u fid with h | ⟨hauthor, hnew, h⟩
    · have e : post1 = post := (Option.some.inj (hrun.symm.trans h))
      subst e
      exact ⟨habsent, huniq, hids⟩
    · have e : post1 = { post with likes := ⟨fid, u⟩ :: post.likes } :=
        Option.some.inj (hrun.symm.trans h)
      subst e
      refine ⟨?_, ?_, hids⟩
      · unfold AuthorAbsent at *
        simp only [List.map_cons, List.mem_cons, not_or]
        exact ⟨hauthor, habsent⟩
      · unfold AtMostOnePerUser at *
        simp only [List.map_cons, List.nodup_cons]
        refine ⟨?_, huniq⟩
        intro hm
        obtain ⟨l, hl, hlu⟩ := List.mem_map.1 hm
        exact hnew l hl hlu
  | unlike u =>
    rcases unlike_snd_cases k post u with h | h
    · have e : post1 = post := (Option.some.inj (hrun.symm.trans h))
      subst e
      exact ⟨habsent, huniq, hids⟩
    · have e : post1 = { post with likes := post.likes.tail } :=
        Option.some.inj (hrun.symm.trans h)
      subst e
      refine ⟨?_, ?_, hids⟩
      · unfold AuthorAbsent at *
        intro hm
        exact habsent (((List.tail_sublist post.likes).map Like.user).subset hm)
      · unfold AtMostOnePerUser at *
        exact huniq.sublist ((List.tail_sublist post.likes).map Like.user)
  | comment u t fid =>
    rcases comment_snd_cases k users post u t fid with h | ⟨usr, h⟩
    · have e : post1 = post := (Option.some.inj (hrun.symm.trans h))
      subst e
      exact ⟨habsent, huniq, hids⟩
    · have e : post1 = { post with comments := newComment usr t fid :: post.comments } :=
        Option.some.inj (hrun.symm.trans h)
      subst e
      refine ⟨habsent, huniq, ?_⟩
      simp only [List.map_cons, List.nodup_cons]
      exact ⟨hfresh, hids⟩
  | uncomment cid u =>
    rcases uncomment_snd_cases k post cid u with h | ⟨start, h⟩
    · have e : post1 = post := (Option.some.inj (hrun.symm.trans h))
      subst e
      exact ⟨habsent, huniq, hids⟩
    · have e : post1 = { post with comments := splice post.comments start 1 } :=
        Option.some.inj (hrun.symm.trans h)
      subst e
      refine ⟨habsent, huniq, ?_⟩
      exact hids.sublist ((splice_sublist post.comments start 1).map Comment.id)

/-- Every document that the create route and the four handlers produce has no like of its
author, at most one like per user, and comments with pairwise distinct ids. -/
theorem reachable_invariants (post : Item) (h : Reachable post) :
    AuthorAbsent post ∧ AtMostOnePerUser post.likes ∧
      (post.comments.map Comment.id).Nodup := by
  induction h with
  | create users user reqUser bodyText date _ _ =>
    refine ⟨?_, ?_, ?_⟩
    · simp [AuthorAbsent, newPost]
    · simp [AtMostOnePerUser, newPost]
    · simp [newPost]
  | step k users post post1 m _ hfresh hrun ih =>
    exact run_preserves_invariants k users post post1 m hfresh hrun ih.1 ih.2.1 ih.2.2

/-- The sample document `sampleItem` is one the routes produce: `"A"` creates it, `"B"` likes
it, `"C"` likes it. -/
theorem sampleItem_reachable : Reachable sampleItem := by
  have h0 : Reachable { sampleItem with likes := [] } :=
    Reachable.create sampleUsers ⟨"A", "Ann", "ann@example.org", "a.png"⟩ "A" "hello" 0
      (by decide) (by decide)
  have h1 : Reachable { sampleItem with likes := [⟨"l1", "B"⟩] } :=
    Reachable.step .post sampleUsers _ _ (.like "B" "l1") h0 trivial (by decide)
  exact Reachable.step .post sampleUsers _ _ (.like "C" "l2") h1 trivial (by decide)

/-- The sample document `commentedItem` is one the routes produce: `"A"` creates it and
comments "hi", then `"C"` comments "yo". -/
theorem commentedItem_reachable : Reachable commentedItem := by
  have h0 : Reachable { commentedItem with comments := [] } :=
    Reachable.create sampleUsers ⟨"A", "Ann", "ann@example.org", "a.png"⟩ "A" "hello" 0
      (by decide) (by decide)
  have h1 : Reachable { commentedItem with comments := [sampleC1] } :=
    Reachable.step .post sampleUsers _ _ (.comment "A" "hi" "c1") h0
      (by simp [Mutation.freshFor]) (by decide)
  exact Reachable.step .post sampleUsers _ _ (.comment "C" "yo" "c2") h1
    (by simp [Mutation.freshFor, sampleC1]) (by decide)

/-! ## The like handler -/

/-- C1: for an item and a caller `u` who is not its author and has no entry in its like list
`L`, the like handler answers 200 with the list made of the new like of `u` followed by `L`,
and exactly that list is what the stored document holds afterwards; no other field moves. -/
theorem like_inserts_at_front (k : Kind) (post : Item) (u fid : String)
    (hauthor : post.user ≠ u) (hnew : ∀ l ∈ post.likes, l.user ≠ u) :
    like k (some post) u fid
      = (⟨200, .likes ({ id := fid, user := u } :: post.likes)⟩,
          some { post with likes := { id := fid, user := u } :: post.likes }) :=
  like_of_new k post u fid hauthor hnew

theorem like_inserts_at_front_witness :
    like .tweet (some sampleItem) "D" "l3"
      = (⟨200, .likes [⟨"l3", "D"⟩, ⟨"l2", "C"⟩, ⟨"l1", "B"⟩]⟩,
          some { sampleItem with likes := [⟨"l3", "D"⟩, ⟨"l2", "C"⟩, ⟨"l1", "B"⟩] }) :=
  like_inserts_at_front .tweet sampleItem "D" "l3" (by decide) (by decide)

/-- C2: on an item whose like list has at most one entry per user, for a caller `u` other than
the author: after the like handler ran, the stored like list holds exactly one entry of `u`,
and running the handler once more for `u` answers 400 "... already liked" and leaves the
stored document as it was. -/
theorem like_twice_already_liked (k : Kind) (post : Item) (u fid fid2 : String)
    (huniq : AtMostOnePerUser post.likes) (hauthor : post.user ≠ u) :
    ∃ post1 : Item, (like k (some post) u fid).2 = some post1 ∧
      (likesOf post1.likes u).length = 1 ∧
      like k (some post1) u fid2 = (⟨400, .msg (k.label ++ " already liked")⟩, some post1) := by
  by_cases hmem : ∃ l ∈ post.likes, l.user = u
  · refine ⟨post, ?_, ?_, like_of_mem k post u fid2 hmem⟩
    · rw [like_of_mem k post u fid hmem]
    · have hle := likesOf_length_le_one post.likes u huniq
      have hpos : (likesOf post.likes u).length ≠ 0 := by
        intro h0
        obtain ⟨l, hl, hu⟩ := hmem
        exact (filter_user_length_eq_zero post.likes u).1 h0 l hl hu
      omega
  · have hnew : ∀ l ∈ post.likes, l.user ≠ u := fun l hl hu => hmem ⟨l, hl, hu⟩
    refine ⟨{ post with likes := ⟨fid, u⟩ :: post.likes }, ?_, ?_, ?_⟩
    · rw [like_of_new k post u fid hauthor hnew]
    · have h0 := (filter_user_length_eq_zero post.likes u).2 hnew
      simp [likesOf, List.filter_cons, h0]
    · exact like_of_mem k _ u fid2 ⟨⟨fid, u⟩, by simp, rfl⟩

theorem like_twice_already_liked_witness :
    ∃ post1 : Item, (like .post (some sampleItem) "D" "l3").2 = some post1 ∧
      (likesOf post1.likes "D").length = 1 ∧
      like .post (some post1) "D" "l4" = (⟨400, .msg "Post already liked"⟩, some post1) :=
  like_twice_already_liked .post sampleItem "D" "l3" "l4" (by decide) (by decide)

/-- C3: for every item `i`, that is every document of the data model, in whose like list the
author has no entry (every document that the create route and the four handlers produce is
one, see `reachable_invariants`), a like of `i` by its own author is answered
400 "Narcissism alert" and the stored document, hence its like list, is unchanged. -/
theorem like_own_item_forbidden (k : Kind) (post : Item) (fid : String)
    (habsent : AuthorAbsent post) :
    like k (some post) post.user fid = (⟨400, .msg "Narcissism alert"⟩, some post) := by
  have hnone : ∀ l ∈ post.likes, l.user ≠ post.user := by
    intro l hl hu
    exact habsent (List.mem_map.2 ⟨l, hl, hu⟩)
  have h0 := (filter_user_length_eq_zero post.likes post.user).2 hnone
  simp [like, h0]

theorem like_own_item_forbidden_witness :
    like .tweet (some sampleItem) "A" "l3" = (⟨400, .msg "Narcissism alert"⟩, some sampleItem) ∧
      like .post (some commentedItem) "A" "l1"
        = (⟨400, .msg "Narcissism alert"⟩, some commentedItem) :=
  ⟨like_own_item_forbidden .tweet sampleItem "l3" (by decide),
    like_own_item_forbidden .post commentedItem "l1"
      (reachable_invariants commentedItem commentedItem_reachable).1⟩

/-! ## The unlike handler -/

/-- C4 at a concrete document: the like list is `[C, B]` (newest first) and `"B"` unlikes.
The handler answers 200 and stores `[B]`: the entry of `"C"` is gone and the entry of the
caller `"B"` is still there, where the claim asks for `[C]`. -/
theorem unlike_removes_first_entry :
    unlike .post (some sampleItem) "B"
        = (⟨200, .likes [⟨"l1", "B"⟩]⟩, some { sampleItem with likes := [⟨"l1", "B"⟩] }) ∧
      unlike .tweet (some sampleItem) "B"
        = (⟨200, .likes [⟨"l1", "B"⟩]⟩, some { sampleItem with likes := [⟨"l1", "B"⟩] }) := by
  decide

/-- C6: on an item with like list `L`, for a caller `u` who is not the author and has no entry
in `L`: the like handler succeeds, and the unlike handler run for `u` on the document it
stored succeeds and stores the original document again, so the like list is exactly `L`
whatever other likes `L` holds. -/
theorem like_then_unlike_restores (k : Kind) (post : Item) (u fid : String)
    (hauthor : post.user ≠ u) (hnew : ∀ l ∈ post.likes, l.user ≠ u) :
    ∃ post1 : Item, like k (some post) u fid = (⟨200, .likes post1.likes⟩, some post1) ∧
      post1.likes = { id := fid, user := u } :: post.likes ∧
      unlike k (some post1) u = (⟨200, .likes post.likes⟩, some post) := by
  refine ⟨{ post with likes := ⟨fid, u⟩ :: post.likes }, ?_, rfl, ?_⟩
  · exact like_of_new k post u fid hauthor hnew
  · have h : (({ post with likes := ⟨fid, u⟩ :: post.likes } : Item).likes.filter
        (fun l => decide (l.user = u))).length ≠ 0 := by
      simp [List.filter_cons]
    rw [unlike_of_mem k _ u h]
    rfl

theorem like_then_unlike_restores_witness :
    ∃ post1 : Item, like .post (some sampleItem) "D" "l3" = (⟨200, .likes post1.likes⟩, some post1) ∧
      post1.likes = { id := "l3", user := "D" } :: sampleItem.likes ∧
      unlike .post (some post1) "D" = (⟨200, .likes sampleItem.likes⟩, some sampleItem) :=
  like_then_unlike_restores .post sampleItem "D" "l3" (by decide) (by decide)

/-! ## The invariants of the like list -/

/-- C5: if the like list of an item has at most one entry per user id and no entry of the
item's author, then after any call of the like, unlike, comment or uncomment handler, by any
caller and whether answered with success or with a rejection, the stored document has the
same author and its like list still has at most one entry per user id and no entry of the
author. -/
theorem mutation_preserves_like_invariants (k : Kind) (users : List User) (post : Item)
    (m : Mutation) (huniq : AtMostOnePerUser post.likes) (habsent : AuthorAbsent post) :
    ∃ post1 : Item, (m.run k users (some post)).2 = some post1 ∧ post1.user = post.user ∧
      AtMostOnePerUser post1.likes ∧ AuthorAbsent post1 := by
  cases m with
  | like u fid =>
    rcases like_snd_cases k post u fid with h | ⟨hauthor, hnew, h⟩
    · exact ⟨post, h, rfl, huniq, habsent⟩
    · refine ⟨_, h, rfl, ?_, ?_⟩
      · unfold AtMostOnePerUser at *
        simp only [List.map_cons, List.nodup_cons]
        refine ⟨?_, huniq⟩
        intro hm
        obtain ⟨l, hl, hlu⟩ := List.mem_map.1 hm
        exact hnew l hl hlu
      · unfold AuthorAbsent at *
        simp only [List.map_cons, List.mem_cons, not_or]
        exact ⟨hauthor, habsent⟩
  | unlike u =>
    rcases unlike_snd_cases k post u with h | h
    · exact ⟨post, h, rfl, huniq, habsent⟩
    · refine ⟨_, h, rfl, ?_, ?_⟩
      · unfold AtMostOnePerUser at *
        exact huniq.sublist ((List.tail_sublist post.likes).map Like.user)
      · unfold AuthorAbsent at *
        intro hm
        exact habsent (((List.tail_sublist post.likes).map Like.user).subset hm)
  | comment u t fid =>
    obtain ⟨post1, h, hl, hu⟩ := comment_snd_likes k users post u t fid
    refine ⟨post1, h, hu, ?_, ?_⟩
    · rw [hl]; exact huniq
    · unfold AuthorAbsent at *
      rw [hl, hu]; exact habsent
  | uncomment cid u =>
    obtain ⟨post1, h, hl, hu⟩ := uncomment_snd_likes k post cid u
    refine ⟨post1, h, hu, ?_, ?_⟩
    · rw [hl]; exact huniq
    · unfold AuthorAbsent at *
      rw [hl, hu]; exact habsent

theorem mutation_preserves_like_invariants_witness :
    ∃ post1 : Item, ((Mutation.unlike "B").run .post [] (some sampleItem)).2 = some post1 ∧
      post1.user = sampleItem.user ∧ AtMostOnePerUser post1.likes ∧ AuthorAbsent post1 :=
  mutation_preserves_like_invariants .post [] sampleItem (.unlike "B") (by decide) (by decide)

/-! ## The comment handlers -/

/-- C7: on an item with comment list `C`, for a caller `u` who has a user record and a
non-empty text `t`, the comment handler answers 200 with, and stores, the list whose first
element is the new comment (author `u`, text `t`, name and avatar of the record of `u`)
followed by `C` as it was; a further comment `c2` lands in front of it, so that commenting
`c1` and then `c2` gives `c2, c1` followed by `C`. -/
theorem comment_prepends (k : Kind) (users : List User) (post : Item)
    (u t fid : String) (usr : User) (u2 t2 fid2 : String) (usr2 : User)
    (ht : t ≠ "") (hu : findById users u = some usr)
    (ht2 : t2 ≠ "") (hu2 : findById users u2 = some usr2) :
    comment k users (some post) u t fid
        = (⟨200, .comments (⟨fid, none, u, t, usr.name, usr.avatar, [], []⟩ :: post.comments)⟩,
            some { post with
              comments := ⟨fid, none, u, t, usr.name, usr.avatar, [], []⟩ :: post.comments }) ∧
      comment k users
          (some { post with
            comments := ⟨fid, none, u, t, usr.name, usr.avatar, [], []⟩ :: post.comments })
          u2 t2 fid2
        = (⟨200, .comments (⟨fid2, none, u2, t2, usr2.name, usr2.avatar, [], []⟩ ::
              ⟨fid, none, u, t, usr.name, usr.avatar, [], []⟩ :: post.comments)⟩,
            some { post with
              comments := ⟨fid2, none, u2, t2, usr2.name, usr2.avatar, [], []⟩ ::
                ⟨fid, none, u, t, usr.name, usr.avatar, [], []⟩ :: post.comments }) := by
  constructor
  · rw [comment_of_valid k users post u t fid usr ht hu, newComment,
      findById_id users u usr hu]
  · rw [comment_of_valid k users _ u2 t2 fid2 usr2 ht2 hu2, newComment,
      findById_id users u2 usr2 hu2]

theorem comment_prepends_witness :
    comment .post sampleUsers (some { commentedItem with comments := [] }) "A" "hi" "c1"
        = (⟨200, .comments [sampleC1]⟩, some { commentedItem with comments := [sampleC1] }) ∧
      comment .post sampleUsers (some { commentedItem with comments := [sampleC1] }) "C" "yo" "c2"
        = (⟨200, .comments [sampleC2, sampleC1]⟩, some commentedItem) :=
  comment_prepends .post sampleUsers { commentedItem with comments := [] }
    "A" "hi" "c1" ⟨"A", "Ann", "ann@example.org", "a.png"⟩
    "C" "yo" "c2" ⟨"C", "Cy", "cy@example.org", "c.png"⟩
    (by decide) (by decide) (by decide) (by decide)

/-- C8: on an item whose comments have pairwise distinct ids, when the comment `c` of id `cid`
was written by the caller `u`, the uncomment handler answers 200 with, and stores, the
comments before `c` followed by the comments after `c` (none of them has id `cid`); and
when no comment of the item has id `cid` it answers 404 "Comment does not exist" and the
stored document is unchanged. -/
theorem uncomment_removes_by_id (k : Kind) (post : Item) (cid u : String)
    (hnd : (post.comments.map Comment.id).Nodup) :
    (∀ c ∈ post.comments, c.id = cid → c.user = u →
        ∃ l1 l2 : List Comment, post.comments = l1 ++ c :: l2 ∧
          (∀ x ∈ l1 ++ l2, x.id ≠ cid) ∧
          uncomment k (some post) cid u
            = (⟨200, .comments (l1 ++ l2)⟩, some { post with comments := l1 ++ l2 })) ∧
      ((∀ c ∈ post.comments, c.id ≠ cid) →
        uncomment k (some post) cid u
          = (⟨404, .msg "Comment does not exist"⟩, some post)) := by
  constructor
  · intro c hc hid hu
    obtain ⟨l1, l2, hsplit, h1, h2⟩ := split_of_nodup_ids post.comments c hnd hc
    refine ⟨l1, l2, hsplit, ?_, ?_⟩
    · intro x hx
      rw [← hid]
      rcases List.mem_append.1 hx with hx1 | hx2
      · exact h1 x hx1
      · exact h2 x hx2
    · rw [← hid]
      exact uncomment_at k post l1 l2 c u hsplit h1 hu
  · intro hnone
    have hf : post.comments.find? (fun c => decide (c.id = cid)) = none := by
      rw [List.find?_eq_none]
      intro x hx
      simpa using hnone x hx
    simp only [uncomment, hf]

theorem uncomment_removes_by_id_witness :
    (∃ l1 l2 : List Comment, commentedItem.comments = l1 ++ sampleC1 :: l2 ∧
        (∀ x ∈ l1 ++ l2, x.id ≠ "c1") ∧
        uncomment .tweet (some commentedItem) "c1" "A"
          = (⟨200, .comments (l1 ++ l2)⟩, some { commentedItem with comments := l1 ++ l2 })) ∧
      uncomment .tweet (some commentedItem) "c9" "A"
        = (⟨404, .msg "Comment does not exist"⟩, some commentedItem) :=
  ⟨(uncomment_removes_by_id .tweet commentedItem "c1" "A" (by decide)).1 sampleC1
      (by decide) rfl rfl,
    (uncomment_removes_by_id .tweet commentedItem "c9" "A" (by decide)).2 (by decide)⟩

/-- C9: for every item, that is every document of the data model, whose comments carry
pairwise distinct ids as generated ids do (every document that the create route and the four
handlers produce is one, see `reachable_invariants`), for every comment `c` on it and every
caller `u` who is not the author of `c` (the author of the item included), the uncomment
handler called with the id of `c` answers 401 "User not authorized" and the stored document,
hence its comment list, is unchanged. -/
theorem uncomment_forbidden (k : Kind) (post : Item) (c : Comment) (u : String)
    (hnd : (post.comments.map Comment.id).Nodup) (hc : c ∈ post.comments) (hu : c.user ≠ u) :
    uncomment k (some post) c.id u = (⟨401, .msg "User not authorized"⟩, some post) := by
  obtain ⟨l1, l2, hsplit, h1, _⟩ := split_of_nodup_ids post.comments c hnd hc
  exact uncomment_at_other_author k post l1 l2 c u hsplit h1 hu

theorem uncomment_forbidden_witness :
    uncomment .post (some commentedItem) "c2" "A"
      = (⟨401, .msg "User not authorized"⟩, some commentedItem) :=
  uncomment_forbidden .post commentedItem sampleC2 "A" (by decide) (by decide) (by decide)

/-- C10: on an item with comment list `C`, let `u` (with a user record) comment a non-empty
text and get the comment id `fid`, let then `k ≥ 0` further comment calls succeed (`reqs`,
each with a non-empty text and a user record), every id being distinct from all ids on the
item when it is handed out.  The first call stores the new comment followed by `C`; the
further calls stack `later`, their comments newest first, on top; and the uncomment handler
called by `u` with `fid` then answers 200 and stores `later` followed by `C`: only the
comment `fid` is gone.  Without further calls it stores the original document again, whose
comment list is `C`. -/
theorem comment_then_uncomment (k : Kind) (users : List User) (post : Item)
    (u t fid : String) (usr : User) (reqs : List CommentReq)
    (ht : t ≠ "") (hu : findById users u = some usr)
    (hvalid : ∀ r ∈ reqs, r.bodyText ≠ "" ∧ (findById users r.reqUser).isSome)
    (hfresh : FreshIds (fid :: reqs.map CommentReq.freshId) (post.comments.map Comment.id)) :
    comment k users (some post) u t fid
        = (⟨200, .comments (newComment usr t fid :: post.comments)⟩,
            some { post with comments := newComment usr t fid :: post.comments }) ∧
      uncomment k (some { post with comments := newComment usr t fid :: post.comments }) fid u
        = (⟨200, .comments post.comments⟩, some post) ∧
      ∃ later : List Comment,
        later.map (fun x => (x.user, x.text, x.id))
          = reqs.reverse.map (fun r => (r.reqUser, r.bodyText, r.freshId)) ∧
        commentAll k users
            (some { post with comments := newComment usr t fid :: post.comments }) reqs
          = some { post with comments := later ++ newComment usr t fid :: post.comments } ∧
        uncomment k
            (some { post with comments := later ++ newComment usr t fid :: post.comments }) fid u
          = (⟨200, .comments (later ++ post.comments)⟩,
              some { post with comments := later ++ post.comments }) := by
  have hcu : (newComment usr t fid).user = u := findById_id users u usr hu
  refine ⟨comment_of_valid k users post u t fid usr ht hu, ?_, ?_⟩
  · exact uncomment_at k { post with comments := newComment usr t fid :: post.comments }
      [] post.comments (newComment usr t fid) u rfl (by simp) hcu
  · obtain ⟨later, hmap, hrun⟩ := commentAll_valid k users reqs
      { post with comments := newComment usr t fid :: post.comments } hvalid
    refine ⟨later, hmap, hrun, ?_⟩
    have hne : ∀ x ∈ later, x.id ≠ (newComment usr t fid).id := by
      intro x hx
      have hmem : (x.user, x.text, x.id)
          ∈ reqs.reverse.map (fun r => (r.reqUser, r.bodyText, r.freshId)) := by
        rw [← hmap]
        exact List.mem_map.2 ⟨x, hx, rfl⟩
      obtain ⟨r, hr, hreq⟩ := List.mem_map.1 hmem
      have hid : r.freshId = x.id := congrArg (fun q => q.2.2) hreq
      rw [← hid]
      exact freshIds_ne _ _ hfresh.2 r.freshId
        (List.mem_map.2 ⟨r, List.mem_reverse.1 hr, rfl⟩) fid (List.mem_cons_self _ _)
    exact uncomment_at k { post with comments := later ++ newComment usr t fid :: post.comments }
      later post.comments (newComment usr t fid) u rfl hne hcu

theorem comment_then_uncomment_witness :
    comment .post sampleUsers (some commentedItem) "B" "me too" "c3"
        = (⟨200, .comments (newComment ⟨"B", "Bob", "bob@example.org", "b.png"⟩ "me too" "c3"
              :: commentedItem.comments)⟩,
            some { commentedItem with
              comments := newComment ⟨"B", "Bob", "bob@example.org", "b.png"⟩ "me too" "c3"
                :: commentedItem.comments }) ∧
      uncomment .post
          (some { commentedItem with
            comments := newComment ⟨"B", "Bob", "bob@example.org", "b.png"⟩ "me too" "c3"
              :: commentedItem.comments }) "c3" "B"
        = (⟨200, .comments commentedItem.comments⟩, some commentedItem) ∧
      ∃ later : List Comment,
        later.map (fun x => (x.user, x.text, x.id))
          = [("A", "again", "c5"), ("C", "so do I", "c4")] ∧
        commentAll .post sampleUsers
            (some { commentedItem with
              comments := newComment ⟨"B", "Bob", "bob@example.org", "b.png"⟩ "me too" "c3"
                :: commentedItem.comments })
            [⟨"C", "so do I", "c4"⟩, ⟨"A", "again", "c5"⟩]
          = some { commentedItem with
              comments := later ++ newComment ⟨"B", "Bob", "bob@example.org", "b.png"⟩ "me too" "c3"
                :: commentedItem.comments } ∧
        uncomment .post
            (some { commentedItem with
              comments := later ++ newComment ⟨"B", "Bob", "bob@example.org", "b.png"⟩ "me too" "c3"
                :: commentedItem.comments }) "c3" "B"
          = (⟨200, .comments (later ++ commentedItem.comments)⟩,
              some { commentedItem with comments := later ++ commentedItem.comments }) :=
  comment_then_uncomment .post sampleUsers commentedItem "B" "me too" "c3"
    ⟨"B", "Bob", "bob@example.org", "b.png"⟩ [⟨"C", "so do I", "c4"⟩, ⟨"A", "again", "c5"⟩]
    (by decide) (by decide) (by decide) (by decide)

/-! ## The unlike handler as written -/

/-- C11: what the unlike handler computes, for every item and caller `u`.  When the like list
has no entry of `u` it answers 401 "Not liked yet" and the stored document is unchanged.
When it has one, the value handed to `splice` is the array that `map` built, with one
`indexOf` result per like, and that array coerces to position 0; the handler answers 200 and
stores the like list without its first entry `first`, whichever user `first` belongs to.  So
an entry of `u` is removed exactly when the first entry is one of `u`: then `u` has one entry
fewer, and otherwise every entry of `u` is still there. -/
theorem unlike_as_written (k : Kind) (post : Item) (u : String) :
    ((∀ l ∈ post.likes, l.user ≠ u) →
        unlike k (some post) u = (⟨401, .msg "Not liked yet"⟩, some post)) ∧
      ((∃ l ∈ post.likes, l.user = u) →
        (post.likes.map (fun l => stringIndexOf l.user u)).length = post.likes.length ∧
        toIntegerOrInfinity (arrayToNumber (post.likes.map (fun l => stringIndexOf l.user u)))
          = 0 ∧
        ∃ first rest, post.likes = first :: rest ∧
          unlike k (some post) u = (⟨200, .likes rest⟩, some { post with likes := rest }) ∧
          (first.user = u → (likesOf rest u).length + 1 = (likesOf post.likes u).length) ∧
          (first.user ≠ u → likesOf rest u = likesOf post.likes u)) := by
  constructor
  · intro hnone
    have h0 := (filter_user_length_eq_zero post.likes u).2 hnone
    simp only [unlike, if_pos h0]
  · intro hmem
    have hne : (post.likes.filter (fun l => decide (l.user = u))).length ≠ 0 := by
      intro h0
      obtain ⟨l, hl, hu⟩ := hmem
      exact (filter_user_length_eq_zero post.likes u).1 h0 l hl hu
    refine ⟨List.length_map _ _, delIndex_eq_zero post.likes u hne, ?_⟩
    cases hlikes : post.likes with
    | nil =>
      obtain ⟨l, hl, _⟩ := hmem
      rw [hlikes] at hl
      simp at hl
    | cons first rest =>
      refine ⟨first, rest, rfl, ?_, ?_, ?_⟩
      · rw [unlike_of_mem k post u hne, hlikes, List.tail_cons]
      · intro hfirst
        simp [likesOf, List.filter_cons, hfirst]
      · intro hfirst
        simp [likesOf, List.filter_cons, hfirst]

theorem unlike_as_written_witness :
    unlike .tweet (some sampleItem) "Z" = (⟨401, .msg "Not liked yet"⟩, some sampleItem) ∧
      ∃ first rest, sampleItem.likes = first :: rest ∧
        unlike .tweet (some sampleItem) "B"
          = (⟨200, .likes rest⟩, some { sampleItem with likes := rest }) ∧
        (first.user = "B" → (likesOf rest "B").length + 1 = (likesOf sampleItem.likes "B").length) ∧
        (first.user ≠ "B" → likesOf rest "B" = likesOf sampleItem.likes "B") :=
  ⟨(unlike_as_written .tweet sampleItem "Z").1 (by decide),
    ((unlike_as_written .tweet sampleItem "B").2 ⟨⟨"l1", "B"⟩, by decide, rfl⟩).2.2⟩

end TwitterV2
